import Mathlib

/-
  Verification development for the slipsole repository (src/main.rs),
  an interactive cubic Bezier curve editor.

  Shallow embedding notes:
  * Rust i32 coordinates are modelled as Int and usize indices as Nat.
    All coordinate arithmetic performed by the program stays far below
    the i32 overflow boundary for canvas inputs, and overflow semantics
    are not part of any claim, so wrapping is not modelled.
  * The handlers mutate a shared State through Rc/RefCell/Cell; since the
    program is single threaded and each handler runs to completion, each
    handler is embedded as a pure function State -> State x Nat, where the
    Nat counts how many times the handler calls the redraw routine.
  * f64 arithmetic: every f64 value produced inside is_point_inside_circle
    is an integer (differences of i32 values are exactly representable;
    powi 2 is a single correctly rounded multiplication whose exact result
    is an integer; the sum of two representable integers is an integer).
    Rounding an integer to the nearest f64 (ties to even) is modelled
    exactly by roundF64 below.  The curve synthesis code divides by 3.0;
    there the exact rational result is either an exact f64 computation
    (when 3 divides the difference) or lies at distance at least 1/3 from
    every integer while the accumulated f64 error is below 2^(-19), so the
    value truncated to an integer coincides with exact fraction arithmetic
    followed by truncation toward zero; the synthesis is therefore
    embedded over exact fractions (the type Fx of unnormalized integer
    fractions, which the kernel can evaluate).
-/

namespace Slipsole

/-- Rust: struct Point { x: i32, y: i32 } (src/main.rs lines 286-296). -/
structure Point where
  x : Int
  y : Int
deriving DecidableEq, Repr

/-- Rust: Point::new. -/
def Point.new (x y : Int) : Point := ⟨x, y⟩

instance : Inhabited Point := ⟨Point.new 0 0⟩

/-- Rust: struct Curve { a b c d : Point } (src/main.rs lines 298-310). -/
structure Curve where
  a : Point
  b : Point
  c : Point
  d : Point
deriving DecidableEq, Repr

/-- Rust: Curve::new. -/
def Curve.new (a b c d : Point) : Curve := ⟨a, b, c, d⟩

instance : Inhabited Curve := ⟨Curve.new default default default default⟩

/-- Rust: enum PointHandle { A, B, C, D } (src/main.rs lines 221-227). -/
inductive PointHandle where
  | A
  | B
  | C
  | D
deriving DecidableEq, Repr

/-- Rust: struct DragState { curve_index: usize, point: PointHandle }
(src/main.rs lines 209-219). -/
structure DragState where
  curve_index : Nat
  point : PointHandle
deriving DecidableEq, Repr

/-- Rust: DragState::new. -/
def DragState.new (curve_index : Nat) (point : PointHandle) : DragState :=
  ⟨curve_index, point⟩

/-- The point of a curve referenced by a handle (the match in the
mousemove closure, src/main.rs lines 147-152). -/
def Curve.select (curve : Curve) : PointHandle → Point
  | PointHandle.A => curve.a
  | PointHandle.B => curve.b
  | PointHandle.C => curve.c
  | PointHandle.D => curve.d

/-- Rust: struct State (src/main.rs lines 202-207).  curves is the ordered
curve list, drag_state the active drag, new_curve the pending anchor of a
two click curve creation gesture, mouse the last recorded pointer
position. -/
structure State where
  curves : List Curve
  drag_state : Option DragState
  new_curve : Option Point
  mouse : Point
deriving DecidableEq, Repr

/-- Rust: const POINT_RADIUS: u32 = 4 (src/main.rs line 14). -/
def POINT_RADIUS : Nat := 4

/-- Floor of the base two logarithm, computed with structural fuel so that
it reduces inside the kernel.  The fuel argument only has to dominate the
number of halvings, and the callers pass the number itself. -/
def log2fuel : Nat → Nat → Nat
  | 0, _ => 0
  | fuel + 1, n => if 2 ≤ n then log2fuel fuel (n / 2) + 1 else 0

/-- Floor of the base two logarithm of a natural number. -/
def floorLog2 (n : Nat) : Nat := log2fuel n n

/-- Round a natural number to the nearest f64 value (53 significant bits,
ties to even), returned as a natural number.  Every f64 value appearing in
is_point_inside_circle is an integer of magnitude below 2^66, well inside
the finite f64 range, so this captures the IEEE rounding exactly. -/
def roundF64Nat (n : Nat) : Nat :=
  if n ≤ 2 ^ 53 then n
  else
    if n % 2 ^ (floorLog2 n - 52) < 2 ^ (floorLog2 n - 52 - 1) then
      n / 2 ^ (floorLog2 n - 52) * 2 ^ (floorLog2 n - 52)
    else if 2 ^ (floorLog2 n - 52 - 1) < n % 2 ^ (floorLog2 n - 52) then
      (n / 2 ^ (floorLog2 n - 52) + 1) * 2 ^ (floorLog2 n - 52)
    else if n / 2 ^ (floorLog2 n - 52) % 2 = 0 then
      n / 2 ^ (floorLog2 n - 52) * 2 ^ (floorLog2 n - 52)
    else (n / 2 ^ (floorLog2 n - 52) + 1) * 2 ^ (floorLog2 n - 52)

/-- Round an integer to the nearest f64 value (ties to even). -/
def roundF64 (n : Int) : Int :=
  if n < 0 then -(roundF64Nat n.natAbs : Int) else (roundF64Nat n.natAbs : Int)

/-- Rust: fn is_point_inside_circle (src/main.rs lines 229-237).  The code
converts the i32 coordinates and the u32 radius to f64 and evaluates
(cx - x).powi(2) + (cy - y).powi(2) <= r.powi(2).  The differences are
exactly representable; each square, the sum, and the squared radius incur
one rounding each, modelled by roundF64. -/
def is_point_inside_circle (center : Point) (radius : Nat) (point : Point) : Bool :=
  let sx := roundF64 ((center.x - point.x) ^ 2)
  let sy := roundF64 ((center.y - point.y) ^ 2)
  let lhs := roundF64 (sx + sy)
  let r2 := roundF64 ((radius : Int) ^ 2)
  decide (lhs ≤ r2)

/-- An exact, unnormalized integer fraction num / den.  It stands in for
the f64 values of the curve synthesis code; every operation below is the
exact rational counterpart of the corresponding f64 operation, and on the
i32 inputs of the program the truncated end results agree (see the header
comment).  No gcd normalization is performed, so the kernel can evaluate
these fractions. -/
structure Fx where
  num : Int
  den : Int
deriving DecidableEq, Repr

/-- Embed an integer (an i32 converted to f64 in the source). -/
def Fx.ofInt (n : Int) : Fx := ⟨n, 1⟩

/-- Exact subtraction of fractions. -/
def Fx.sub (a b : Fx) : Fx := ⟨a.num * b.den - b.num * a.den, a.den * b.den⟩

/-- Exact addition of fractions. -/
def Fx.add (a b : Fx) : Fx := ⟨a.num * b.den + b.num * a.den, a.den * b.den⟩

/-- Exact multiplication of fractions. -/
def Fx.mul (a b : Fx) : Fx := ⟨a.num * b.num, a.den * b.den⟩

/-- Exact division of fractions. -/
def Fx.div (a b : Fx) : Fx := ⟨a.num * b.den, a.den * b.num⟩

/-- Truncation of a fraction toward zero, the semantics of the Rust cast
from f64 to i32 (the stored values always fit in i32).  Int.tdiv is
truncating division, and the denominators produced by the synthesis are
positive. -/
def truncToInt (q : Fx) : Int := Int.tdiv q.num q.den

/-- The new curve synthesis in the mousedown closure (src/main.rs lines
99-125), for pending anchor a and second click point mouse.  The f64
arithmetic is embedded as exact fractions; see the header comment for why
the truncated results agree with the f64 computation on i32 inputs. -/
def synthCurve (a mouse : Point) : Curve :=
  let ax : Fx := Fx.ofInt a.x
  let ay : Fx := Fx.ofInt a.y
  let dx : Fx := Fx.ofInt mouse.x
  let dy : Fx := Fx.ofInt mouse.y
  let adx := dx.sub ax
  let ady := dy.sub ay
  let abx := adx.div (Fx.ofInt 3)
  let aby := ady.div (Fx.ofInt 3)
  let bx := ax.add abx
  let byy := ay.add aby
  let acx := (adx.div (Fx.ofInt 3)).mul (Fx.ofInt 2)
  let acy := (ady.div (Fx.ofInt 3)).mul (Fx.ofInt 2)
  let cx := ax.add acx
  let cy := ay.add acy
  let b := Point.new (truncToInt bx) (truncToInt byy)
  let c := Point.new (truncToInt cx) (truncToInt cy)
  Curve.new a b c mouse

/-- The four hit tests the mousedown closure performs against one curve,
in the textual order of src/main.rs lines 62-92: a, then b, then c,
then d. -/
def hitTestCurve (mouse : Point) (curve : Curve) : Option PointHandle :=
  if is_point_inside_circle curve.a POINT_RADIUS mouse then some PointHandle.A
  else if is_point_inside_circle curve.b POINT_RADIUS mouse then some PointHandle.B
  else if is_point_inside_circle curve.c POINT_RADIUS mouse then some PointHandle.C
  else if is_point_inside_circle curve.d POINT_RADIUS mouse then some PointHandle.D
  else none

/-- The enumerate loop of the mousedown closure (src/main.rs lines 61-93):
scan the curves in order, early return on the first handle hit.  The
second argument is the index of the first curve of the list. -/
def hitTest (mouse : Point) : List Curve → Nat → Option DragState
  | [], _ => none
  | curve :: rest, index =>
    match hitTestCurve mouse curve with
    | some h => some (DragState.new index h)
    | none => hitTest mouse rest (index + 1)

/-- The mousedown closure (src/main.rs lines 57-127).  Returns the new
state and the number of redraw calls the handler makes. -/
def mousedown (s : State) (p : Point) : State × Nat :=
  let s1 : State := { s with mouse := p }
  match hitTest p s1.curves 0 with
  | some ds => ({ s1 with drag_state := some ds }, 0)
  | none =>
    match s1.new_curve with
    | none => ({ s1 with new_curve := some p }, 0)
    | some a =>
      ({ s1 with new_curve := none, curves := s1.curves ++ [synthCurve a p] }, 1)

/-- The mutation of the dragged point in the mousemove closure
(src/main.rs lines 147-156): add the pointer delta to the coordinates of
the handle selected by the drag state. -/
def movePoint (curve : Curve) (h : PointHandle) (dx dy : Int) : Curve :=
  match h with
  | PointHandle.A => { curve with a := Point.new (curve.a.x + dx) (curve.a.y + dy) }
  | PointHandle.B => { curve with b := Point.new (curve.b.x + dx) (curve.b.y + dy) }
  | PointHandle.C => { curve with c := Point.new (curve.c.x + dx) (curve.c.y + dy) }
  | PointHandle.D => { curve with d := Point.new (curve.d.x + dx) (curve.d.y + dy) }

/-- The mousemove closure (src/main.rs lines 135-169).  The drag branch
computes the delta against the stored mouse position before updating it,
mutates the referenced point, stores the new mouse position, rewrites the
(unchanged) drag state and redraws.  Independently, the pending anchor
branch stores the new mouse position and redraws.  Returns the new state
and the number of redraw calls. -/
def mousemove (s : State) (p : Point) : State × Nat :=
  let afterDrag : State × Nat :=
    match s.drag_state with
    | some drag_state =>
      let dx := p.x - s.mouse.x
      let dy := p.y - s.mouse.y
      let curve := s.curves.getD drag_state.curve_index default
      let curve2 := movePoint curve drag_state.point dx dy
      ({ s with
          curves := s.curves.set drag_state.curve_index curve2,
          mouse := p,
          drag_state := some drag_state }, 1)
    | none => (s, 0)
  match afterDrag with
  | (s1, n) =>
    match s1.new_curve with
    | some _ => ({ s1 with mouse := p }, n + 1)
    | none => (s1, n)

/-- The mouseup closure (src/main.rs lines 172-178): unconditionally clear
the drag state; nothing else is touched and no redraw happens. -/
def mouseup (s : State) : State × Nat :=
  ({ s with drag_state := none }, 0)

/-- The three pointer events seen by the editor. -/
inductive Event where
  | down (p : Point)
  | move (p : Point)
  | up
deriving DecidableEq, Repr

/-- Dispatch one event to its handler. -/
def stepEv (s : State) (e : Event) : State × Nat :=
  match e with
  | Event.down p => mousedown s p
  | Event.move p => mousemove s p
  | Event.up => mouseup s

/-- Process a list of events in order. -/
def run (s : State) : List Event → State
  | [] => s
  | e :: es => run (stepEv s e).1 es

/-- The initial state built in main (src/main.rs lines 43-48). -/
def initState : State :=
  { curves := [], drag_state := none, new_curve := none, mouse := Point.new 0 0 }

/-- Squared euclidean distance between a center and a point, the quantity
named by the specification for hit testing. -/
def sqDist (center point : Point) : Int :=
  (point.x - center.x) ^ 2 + (point.y - center.y) ^ 2

/-- The pointer position hits no handle of any curve: every one of the
four points of every curve fails the circular hit test of radius
POINT_RADIUS. -/
def hitsNoHandle (p : Point) (l : List Curve) : Prop :=
  ∀ c ∈ l, ∀ h : PointHandle, is_point_inside_circle (Curve.select c h) POINT_RADIUS p = false

/-! ### Properties of the f64 rounding model -/

lemma log2fuel_spec : ∀ fuel n : Nat, 1 ≤ n → n ≤ fuel →
    2 ^ log2fuel fuel n ≤ n ∧ n < 2 ^ (log2fuel fuel n + 1) := by
  intro fuel
  induction fuel with
  | zero => intro n h1 h2; omega
  | succ f ih =>
    intro n h1 h2
    by_cases h2n : 2 ≤ n
    · obtain ⟨hl, hr⟩ := ih (n / 2) (by omega) (by omega)
      simp only [log2fuel, if_pos h2n]
      rw [pow_succ] at hr
      rw [pow_succ, pow_succ]
      constructor <;> omega
    · simp only [log2fuel, if_neg h2n]
      norm_num
      omega

lemma roundF64Nat_small {n : Nat} (h : n ≤ 2 ^ 53) : roundF64Nat n = n := by
  unfold roundF64Nat
  rw [if_pos h]

lemma roundF64Nat_big {n : Nat} (h : 2 ^ 53 < n) : 2 ^ 52 ≤ roundF64Nat n := by
  have h1 : 1 ≤ n := by
    have : (0:Nat) < 2 ^ 53 := by positivity
    omega
  obtain ⟨hl, hr⟩ := log2fuel_spec n n h1 le_rfl
  have hb : 53 ≤ log2fuel n n := by
    by_contra hc
    push_neg at hc
    have h2 : 2 ^ (log2fuel n n + 1) ≤ 2 ^ 53 := Nat.pow_le_pow_right (by norm_num) (by omega)
    omega
  unfold roundF64Nat floorLog2
  rw [if_neg (by omega)]
  have hkpos : 0 < 2 ^ (log2fuel n n - 52) := by positivity
  have hq : 2 ^ 52 ≤ n / 2 ^ (log2fuel n n - 52) := by
    rw [Nat.le_div_iff_mul_le hkpos]
    calc (2:Nat) ^ 52 * 2 ^ (log2fuel n n - 52) = 2 ^ (52 + (log2fuel n n - 52)) :=
          (pow_add 2 52 (log2fuel n n - 52)).symm
    _ = 2 ^ log2fuel n n := by congr 1; omega
    _ ≤ n := hl
  have hmul : n / 2 ^ (log2fuel n n - 52) ≤ n / 2 ^ (log2fuel n n - 52) * 2 ^ (log2fuel n n - 52) :=
    Nat.le_mul_of_pos_right _ hkpos
  have hmul2 : n / 2 ^ (log2fuel n n - 52) * 2 ^ (log2fuel n n - 52) ≤
      (n / 2 ^ (log2fuel n n - 52) + 1) * 2 ^ (log2fuel n n - 52) :=
    Nat.mul_le_mul_right _ (by omega)
  split_ifs <;> omega

lemma roundF64_small {n : Int} (h0 : 0 ≤ n) (h : n ≤ 9007199254740992) : roundF64 n = n := by
  unfold roundF64
  rw [if_neg (by omega)]
  have hp : (2:Nat) ^ 53 = 9007199254740992 := by norm_num
  have hn : n.natAbs ≤ 2 ^ 53 := by omega
  rw [roundF64Nat_small hn]
  omega

lemma roundF64_big {n : Int} (h : 9007199254740992 < n) : 4503599627370496 ≤ roundF64 n := by
  unfold roundF64
  rw [if_neg (by omega)]
  have hp : (2:Nat) ^ 53 = 9007199254740992 := by norm_num
  have hp2 : (2:Nat) ^ 52 = 4503599627370496 := by norm_num
  have hn : 2 ^ 53 < n.natAbs := by omega
  have := roundF64Nat_big hn
  omega

lemma roundF64_nonneg {n : Int} (h0 : 0 ≤ n) : 0 ≤ roundF64 n := by
  unfold roundF64
  rw [if_neg (by omega)]
  omega

/-- At the hit testing radius 4 the f64 computation of
is_point_inside_circle is exact: it decides precisely whether the
squared euclidean distance is at most 16, boundary included.  Rounding
only occurs above 2 ^ 53, far beyond 16, so a rounded sum can never fall
back under the threshold. -/
lemma inside_radius_four (c p : Point) :
    is_point_inside_circle c POINT_RADIUS p = decide (sqDist c p ≤ 16) := by
  have hr : roundF64 ((POINT_RADIUS : Int) ^ 2) = 16 := by decide
  simp only [is_point_inside_circle, hr]
  rw [decide_eq_decide]
  set X := (c.x - p.x) ^ 2 with hXdef
  set Y := (c.y - p.y) ^ 2 with hYdef
  have hX0 : 0 ≤ X := sq_nonneg _
  have hY0 : 0 ≤ Y := sq_nonneg _
  have hsq : sqDist c p = X + Y := by
    rw [sqDist, hXdef, hYdef]; ring
  rw [hsq]
  by_cases hX : X ≤ 9007199254740992
  · by_cases hY : Y ≤ 9007199254740992
    · rw [roundF64_small hX0 hX, roundF64_small hY0 hY]
      by_cases hS : X + Y ≤ 9007199254740992
      · rw [roundF64_small (by omega) hS]
      · have hb := roundF64_big (n := X + Y) (by omega)
        constructor <;> intro <;> omega
    · have hbY := roundF64_big (n := Y) (by omega)
      have hX0' := roundF64_nonneg hX0
      by_cases hS : roundF64 X + roundF64 Y ≤ 9007199254740992
      · rw [roundF64_small (by omega) hS]
        constructor <;> intro <;> omega
      · have hb := roundF64_big (n := roundF64 X + roundF64 Y) (by omega)
        constructor <;> intro <;> omega
  · have hbX := roundF64_big (n := X) (by omega)
    have hY0' := roundF64_nonneg hY0
    by_cases hS : roundF64 X + roundF64 Y ≤ 9007199254740992
    · rw [roundF64_small (by omega) hS]
      constructor <;> intro <;> omega
    · have hb := roundF64_big (n := roundF64 X + roundF64 Y) (by omega)
      constructor <;> intro <;> omega

/-! ### Hit testing lemmas -/

@[simp] lemma select_A (c : Curve) : Curve.select c PointHandle.A = c.a := rfl

@[simp] lemma select_B (c : Curve) : Curve.select c PointHandle.B = c.b := rfl

@[simp] lemma select_C (c : Curve) : Curve.select c PointHandle.C = c.c := rfl

@[simp] lemma select_D (c : Curve) : Curve.select c PointHandle.D = c.d := rfl

/-- The per curve hit test equals the first handle, in the fixed order
a, b, c, d, whose squared distance to the pointer is at most 16. -/
lemma hitTestCurve_eq_find (p : Point) (c : Curve) :
    hitTestCurve p c =
      [PointHandle.A, PointHandle.B, PointHandle.C, PointHandle.D].find?
        (fun h => decide (sqDist (Curve.select c h) p ≤ 16)) := by
  simp only [hitTestCurve, inside_radius_four, List.find?, select_A, select_B, select_C, select_D]
  by_cases hA : sqDist c.a p ≤ 16 <;> by_cases hB : sqDist c.b p ≤ 16 <;>
    by_cases hC : sqDist c.c p ≤ 16 <;> by_cases hD : sqDist c.d p ≤ 16 <;>
    simp [hA, hB, hC, hD]

/-- No handle of the curve is hit, in terms of the circular hit test. -/
lemma hitTestCurve_eq_none (p : Point) (c : Curve) :
    hitTestCurve p c = none ↔
      ∀ h : PointHandle, is_point_inside_circle (Curve.select c h) POINT_RADIUS p = false := by
  have hfour : hitTestCurve p c = none ↔
      (is_point_inside_circle c.a POINT_RADIUS p = false ∧
       is_point_inside_circle c.b POINT_RADIUS p = false ∧
       is_point_inside_circle c.c POINT_RADIUS p = false ∧
       is_point_inside_circle c.d POINT_RADIUS p = false) := by
    unfold hitTestCurve
    by_cases hA : is_point_inside_circle c.a POINT_RADIUS p <;>
      by_cases hB : is_point_inside_circle c.b POINT_RADIUS p <;>
      by_cases hC : is_point_inside_circle c.c POINT_RADIUS p <;>
      by_cases hD : is_point_inside_circle c.d POINT_RADIUS p <;>
      simp [hA, hB, hC, hD]
  rw [hfour]
  constructor
  · rintro ⟨hA, hB, hC, hD⟩ h
    cases h <;> simpa
  · intro hall
    exact ⟨by simpa using hall PointHandle.A, by simpa using hall PointHandle.B,
      by simpa using hall PointHandle.C, by simpa using hall PointHandle.D⟩

lemma hitTest_nil (p : Point) (n : Nat) : hitTest p [] n = none := rfl

lemma hitTest_cons (p : Point) (c : Curve) (r : List Curve) (n : Nat) :
    hitTest p (c :: r) n =
      match hitTestCurve p c with
      | some h => some (DragState.new n h)
      | none => hitTest p r (n + 1) := rfl

lemma hitTest_cons_some {p : Point} {c : Curve} {h : PointHandle} (r : List Curve) (n : Nat)
    (hc : hitTestCurve p c = some h) :
    hitTest p (c :: r) n = some (DragState.new n h) := by
  rw [hitTest_cons, hc]

lemma hitTest_cons_none {p : Point} {c : Curve} (r : List Curve) (n : Nat)
    (hc : hitTestCurve p c = none) :
    hitTest p (c :: r) n = hitTest p r (n + 1) := by
  rw [hitTest_cons, hc]

/-- The whole hit test scan returns none precisely when no curve of the
list has a hit handle. -/
lemma hitTest_eq_none (p : Point) (l : List Curve) (n : Nat) :
    hitTest p l n = none ↔ ∀ c ∈ l, hitTestCurve p c = none := by
  induction l generalizing n with
  | nil => simp [hitTest_nil]
  | cons c r ih =>
    cases hc : hitTestCurve p c with
    | some h => simp [hitTest_cons_some r n hc, hc]
    | none => simp [hitTest_cons_none r n hc, hc, ih (n + 1)]

/-- Starting the scan at a higher first index shifts every reported
curve index by that amount. -/
lemma hitTest_shift (p : Point) (l : List Curve) (n : Nat) :
    hitTest p l n =
      Option.map (fun ds => DragState.new (ds.curve_index + n) ds.point) (hitTest p l 0) := by
  induction l generalizing n with
  | nil => simp [hitTest_nil]
  | cons c r ih =>
    cases hc : hitTestCurve p c with
    | some h => simp [hitTest_cons_some r _ hc, DragState.new]
    | none =>
      rw [hitTest_cons_none r n hc, hitTest_cons_none r 0 hc]
      rw [ih (n + 1), ih 1, Option.map_map]
      cases hr : hitTest p r 0 with
      | none => simp
      | some ds => simp [Function.comp, DragState.new]; omega

/-- The index reported by the hit test is within the scanned list. -/
lemma hitTest_lt_length {p : Point} {l : List Curve} {n : Nat} {ds : DragState}
    (h : hitTest p l n = some ds) : ds.curve_index < n + l.length := by
  induction l generalizing n with
  | nil => rw [hitTest_nil] at h; cases h
  | cons c r ih =>
    cases hc : hitTestCurve p c with
    | some hh =>
      rw [hitTest_cons_some r n hc] at h
      simp only [Option.some.injEq] at h
      subst h
      simp [DragState.new]
    | none =>
      rw [hitTest_cons_none r n hc] at h
      have := ih h
      simp only [List.length_cons]
      omega

/-- Full characterization of the hit test started at index 0: it reports
exactly the earliest curve with a hit handle, together with the first
hit handle of that curve, and every earlier curve has no hit handle. -/
lemma hitTest_zero_iff (p : Point) (l : List Curve) (ds : DragState) :
    hitTest p l 0 = some ds ↔
      ds.curve_index < l.length ∧
      hitTestCurve p (l.getD ds.curve_index default) = some ds.point ∧
      ∀ j, j < ds.curve_index → hitTestCurve p (l.getD j default) = none := by
  induction l generalizing ds with
  | nil => simp [hitTest_nil]
  | cons c r ih =>
    cases hc : hitTestCurve p c with
    | some h =>
      rw [hitTest_cons_some r 0 hc]
      constructor
      · intro hsome
        simp only [Option.some.injEq] at hsome
        subst hsome
        refine ⟨by simp [DragState.new], by simpa [DragState.new] using hc, ?_⟩
        intro j hj
        simp [DragState.new] at hj
      · rintro ⟨hlen, hget, hall⟩
        rcases ds with ⟨ci, pt⟩
        cases ci with
        | zero =>
          rw [List.getD_cons_zero] at hget
          rw [hc] at hget
          simp only [Option.some.injEq] at hget
          subst hget
          rfl
        | succ m =>
          have h0 := hall 0 (by show 0 < m + 1; omega)
          rw [List.getD_cons_zero] at h0
          rw [hc] at h0
          cases h0
    | none =>
      rw [hitTest_cons_none r 0 hc]
      rw [hitTest_shift p r 1]
      constructor
      · intro hsome
        rw [Option.map_eq_some'] at hsome
        obtain ⟨ds0, hds0, hmap⟩ := hsome
        subst hmap
        obtain ⟨hlen, hget, hall⟩ := (ih ds0).mp hds0
        refine ⟨by simp only [DragState.new, List.length_cons]; omega, ?_, ?_⟩
        · simpa [DragState.new, List.getD_cons_succ] using hget
        · intro j hj
          simp only [DragState.new] at hj
          cases j with
          | zero => simpa [List.getD_cons_zero] using hc
          | succ m =>
            have := hall m (by omega)
            simpa [List.getD_cons_succ] using this
      · rintro ⟨hlen, hget, hall⟩
        rcases ds with ⟨ci, pt⟩
        cases ci with
        | zero =>
          rw [List.getD_cons_zero, hc] at hget
          cases hget
        | succ m =>
          have hr : hitTest p r 0 = some (DragState.new m pt) := by
            apply (ih (DragState.new m pt)).mpr
            have hlen2 : m + 1 < r.length + 1 := by simpa using hlen
            refine ⟨by simp only [DragState.new]; omega, ?_, ?_⟩
            · simpa [DragState.new, List.getD_cons_succ] using hget
            · intro j hj
              have := hall (j + 1) (by simp [DragState.new] at hj ⊢; omega)
              simpa [List.getD_cons_succ] using this
          rw [hr]
          simp [DragState.new]

/-! ### Handler branch lemmas -/

lemma mousedown_hit {s : State} {p : Point} {ds : DragState}
    (h : hitTest p s.curves 0 = some ds) :
    mousedown s p = ({ s with mouse := p, drag_state := some ds }, 0) := by
  simp only [mousedown, h]

lemma mousedown_free_noPending {s : State} {p : Point}
    (h : hitTest p s.curves 0 = none) (hn : s.new_curve = none) :
    mousedown s p = ({ s with mouse := p, new_curve := some p }, 0) := by
  simp only [mousedown, h, hn]

lemma mousedown_free_pending {s : State} {p : Point} {a : Point}
    (h : hitTest p s.curves 0 = none) (ha : s.new_curve = some a) :
    mousedown s p =
      ({ s with mouse := p, new_curve := none, curves := s.curves ++ [synthCurve a p] }, 1) := by
  simp only [mousedown, h, ha]

lemma mousemove_none {s : State} {p : Point}
    (hd : s.drag_state = none) (hn : s.new_curve = none) :
    mousemove s p = (s, 0) := by
  simp only [mousemove, hd, hn]

lemma mousemove_nodrag_pending {s : State} {p : Point} {a : Point}
    (hd : s.drag_state = none) (hn : s.new_curve = some a) :
    mousemove s p = ({ s with mouse := p }, 1) := by
  simp only [mousemove, hd, hn]

lemma mousemove_drag {s : State} {p : Point} {idx : Nat} {handle : PointHandle}
    (hd : s.drag_state = some (DragState.new idx handle)) :
    (mousemove s p).1 =
      { s with
          curves := s.curves.set idx
            (movePoint (s.curves.getD idx default) handle (p.x - s.mouse.x) (p.y - s.mouse.y)),
          mouse := p,
          drag_state := some (DragState.new idx handle) } := by
  cases hn : s.new_curve with
  | none => simp [mousemove, hd, hn, DragState.new]
  | some a => simp [mousemove, hd, hn, DragState.new]

/-! ### List getD and set helpers -/

lemma getD_set_self {α : Type} (l : List α) (i : Nat) (a dflt : α) (h : i < l.length) :
    (l.set i a).getD i dflt = a := by
  induction l generalizing i with
  | nil => simp at h
  | cons x xs ih =>
    cases i with
    | zero => simp
    | succ m =>
      simp only [List.set, List.getD_cons_succ]
      exact ih m (by simpa using h)

lemma getD_set_ne {α : Type} (l : List α) (i j : Nat) (a dflt : α) (h : i ≠ j) :
    (l.set i a).getD j dflt = l.getD j dflt := by
  induction l generalizing i j with
  | nil => simp
  | cons x xs ih =>
    cases i with
    | zero =>
      cases j with
      | zero => exact absurd rfl h
      | succ m => simp [List.getD_cons_succ]
    | succ n2 =>
      cases j with
      | zero => simp [List.getD_cons_zero]
      | succ m =>
        simp only [List.set, List.getD_cons_succ]
        exact ih n2 m (by omega)

/-! ### movePoint frame lemmas -/

lemma select_movePoint_same (c : Curve) (h : PointHandle) (dx dy : Int) :
    Curve.select (movePoint c h dx dy) h =
      Point.new ((Curve.select c h).x + dx) ((Curve.select c h).y + dy) := by
  cases h <;> rfl

lemma select_movePoint_other (c : Curve) (h h2 : PointHandle) (dx dy : Int) (hne : h2 ≠ h) :
    Curve.select (movePoint c h dx dy) h2 = Curve.select c h2 := by
  cases h <;> cases h2 <;> first | rfl | exact absurd rfl hne

/-! ### Reachability and the drag index invariant -/

/-- The drag state, when present, references a valid curve index. -/
def Inv (s : State) : Prop :=
  ∀ ds : DragState, s.drag_state = some ds → ds.curve_index < s.curves.length

/-- A state is reachable when some event sequence leads to it from the
initial state. -/
def Reachable (s : State) : Prop := ∃ es : List Event, run initState es = s

lemma inv_mousedown {s : State} {p : Point} (h : Inv s) : Inv (mousedown s p).1 := by
  cases hh : hitTest p s.curves 0 with
  | some ds =>
    rw [mousedown_hit hh]
    intro ds2 hds2
    simp only [Option.some.injEq] at hds2
    subst hds2
    have := hitTest_lt_length hh
    simpa using this
  | none =>
    cases hn : s.new_curve with
    | none =>
      rw [mousedown_free_noPending hh hn]
      intro ds2 hds2
      exact h ds2 hds2
    | some a =>
      rw [mousedown_free_pending hh hn]
      intro ds2 hds2
      have := h ds2 hds2
      simp only [List.length_append, List.length_cons, List.length_nil]
      omega

lemma inv_mousemove {s : State} {p : Point} (h : Inv s) : Inv (mousemove s p).1 := by
  cases hd : s.drag_state with
  | none =>
    cases hn : s.new_curve with
    | none =>
      rw [mousemove_none hd hn]
      exact h
    | some a =>
      rw [mousemove_nodrag_pending hd hn]
      intro ds2 hds2
      exact h ds2 hds2
  | some ds0 =>
    rcases ds0 with ⟨idx, handle⟩
    rw [mousemove_drag hd]
    intro ds2 hds2
    simp only [Option.some.injEq] at hds2
    subst hds2
    simp only [List.length_set]
    exact h (DragState.new idx handle) hd

lemma inv_mouseup {s : State} (_ : Inv s) : Inv (mouseup s).1 := by
  intro ds2 hds2
  cases hds2

lemma inv_step {s : State} {e : Event} (h : Inv s) : Inv (stepEv s e).1 := by
  cases e with
  | down p => exact inv_mousedown h
  | move p => exact inv_mousemove h
  | up => exact inv_mouseup h

lemma length_step (s : State) (e : Event) :
    s.curves.length ≤ ((stepEv s e).1).curves.length := by
  cases e with
  | down p =>
    cases hh : hitTest p s.curves 0 with
    | some ds => rw [show stepEv s (Event.down p) = mousedown s p from rfl, mousedown_hit hh]
    | none =>
      cases hn : s.new_curve with
      | none =>
        rw [show stepEv s (Event.down p) = mousedown s p from rfl,
          mousedown_free_noPending hh hn]
      | some a =>
        rw [show stepEv s (Event.down p) = mousedown s p from rfl,
          mousedown_free_pending hh hn]
        simp only [List.length_append, List.length_cons, List.length_nil]
        omega
  | move p =>
    cases hd : s.drag_state with
    | none =>
      cases hn : s.new_curve with
      | none => rw [show stepEv s (Event.move p) = mousemove s p from rfl, mousemove_none hd hn]
      | some a =>
        rw [show stepEv s (Event.move p) = mousemove s p from rfl,
          mousemove_nodrag_pending hd hn]
    | some ds0 =>
      rcases ds0 with ⟨idx, handle⟩
      have := mousemove_drag (p := p) hd
      rw [show (stepEv s (Event.move p)).1 = (mousemove s p).1 from rfl, this]
      simp only [List.length_set]
      exact le_rfl
  | up => exact le_rfl

lemma inv_run (es : List Event) : ∀ s : State, Inv s → Inv (run s es) := by
  induction es with
  | nil => intro s h; exact h
  | cons e es ih =>
    intro s h
    show Inv (run (stepEv s e).1 es)
    exact ih _ (inv_step h)

lemma inv_initState : Inv initState := by
  intro ds hds
  cases hds

lemma inv_reachable {s : State} (h : Reachable s) : Inv s := by
  obtain ⟨es, hes⟩ := h
  subst hes
  exact inv_run es initState inv_initState

/-! ### Claim theorems -/

/-- C1: on a pointer down at a position that hits no handle of any curve,
if the pending anchor is absent the handler records the position as the
pending anchor and leaves the curve list unchanged; if the pending anchor
holds A the handler clears it and appends exactly one curve synthesized
from A to the click point.  In particular, clicking at (10,10) and then at
(310,10) from the initial state yields the single curve a=(10,10),
b=(110,10), c=(210,10), d=(310,10) with the pending anchor cleared. -/
theorem claim_C1_mousedown_no_hit :
    (∀ (s : State) (p : Point), hitsNoHandle p s.curves →
      ((s.new_curve = none →
          (mousedown s p).1.new_curve = some p ∧ (mousedown s p).1.curves = s.curves) ∧
        (∀ a : Point, s.new_curve = some a →
          (mousedown s p).1.new_curve = none ∧
          (mousedown s p).1.curves = s.curves ++ [synthCurve a p]))) ∧
    (run initState [Event.down (Point.new 10 10)]).new_curve = some (Point.new 10 10) ∧
    (run initState [Event.down (Point.new 10 10)]).curves = [] ∧
    (run initState [Event.down (Point.new 10 10), Event.down (Point.new 310 10)]).curves =
      [Curve.new (Point.new 10 10) (Point.new 110 10) (Point.new 210 10) (Point.new 310 10)] ∧
    (run initState [Event.down (Point.new 10 10), Event.down (Point.new 310 10)]).new_curve =
      none := by
  refine ⟨?_, by decide, by decide, by decide, by decide⟩
  intro s p hfree
  have hnone : hitTest p s.curves 0 = none := by
    rw [hitTest_eq_none]
    intro c hc
    rw [hitTestCurve_eq_none]
    intro h
    exact hfree c hc h
  constructor
  · intro hn
    rw [mousedown_free_noPending hnone hn]
    exact ⟨rfl, rfl⟩
  · intro a ha
    rw [mousedown_free_pending hnone ha]
    exact ⟨rfl, rfl⟩

/-- Witness for C1: a concrete pointer down far from the only curve, with
no pending anchor, records the click as the pending anchor and leaves the
curve list unchanged. -/
theorem claim_C1_witness :
    (mousedown
        { curves := [Curve.new (Point.new 100 100) (Point.new 110 100)
            (Point.new 120 100) (Point.new 130 100)],
          drag_state := none, new_curve := none, mouse := Point.new 0 0 }
        (Point.new 500 500)).1.new_curve = some (Point.new 500 500) ∧
    (mousedown
        { curves := [Curve.new (Point.new 100 100) (Point.new 110 100)
            (Point.new 120 100) (Point.new 130 100)],
          drag_state := none, new_curve := none, mouse := Point.new 0 0 }
        (Point.new 500 500)).1.curves =
      [Curve.new (Point.new 100 100) (Point.new 110 100)
        (Point.new 120 100) (Point.new 130 100)] :=
  (claim_C1_mousedown_no_hit.1 _ (Point.new 500 500)
    (by
      intro c hc h
      rw [List.mem_singleton] at hc
      subst hc
      cases h <;> decide)).1 rfl

/-- C2: on a pointer move while a drag is active, the handler adds the
delta between the new position and the stored pointer position, computed
before the pointer position is updated, to the coordinates of the dragged
point, and then stores the new position.  In particular, dragging handle a
of a curve with a=(0,0) from pointer position (0,0) to (5,5) moves a to
(5,5), and a further move to (8,5) applies delta (3,0) giving a=(8,5). -/
theorem claim_C2_mousemove_drag_delta :
    (∀ (s : State) (p : Point) (idx : Nat) (handle : PointHandle),
      s.drag_state = some (DragState.new idx handle) →
      idx < s.curves.length →
      Curve.select ((mousemove s p).1.curves.getD idx default) handle =
        Point.new ((Curve.select (s.curves.getD idx default) handle).x + (p.x - s.mouse.x))
          ((Curve.select (s.curves.getD idx default) handle).y + (p.y - s.mouse.y)) ∧
      (mousemove s p).1.mouse = p) ∧
    (run
        { curves := [Curve.new (Point.new 0 0) (Point.new 100 0)
            (Point.new 200 0) (Point.new 300 0)],
          drag_state := none, new_curve := none, mouse := Point.new 0 0 }
        [Event.down (Point.new 0 0)]).drag_state = some (DragState.new 0 PointHandle.A) ∧
    (run
        { curves := [Curve.new (Point.new 0 0) (Point.new 100 0)
            (Point.new 200 0) (Point.new 300 0)],
          drag_state := none, new_curve := none, mouse := Point.new 0 0 }
        [Event.down (Point.new 0 0), Event.move (Point.new 5 5)]).curves =
      [Curve.new (Point.new 5 5) (Point.new 100 0) (Point.new 200 0) (Point.new 300 0)] ∧
    (run
        { curves := [Curve.new (Point.new 0 0) (Point.new 100 0)
            (Point.new 200 0) (Point.new 300 0)],
          drag_state := none, new_curve := none, mouse := Point.new 0 0 }
        [Event.down (Point.new 0 0), Event.move (Point.new 5 5)]).mouse = Point.new 5 5 ∧
    (run
        { curves := [Curve.new (Point.new 0 0) (Point.new 100 0)
            (Point.new 200 0) (Point.new 300 0)],
          drag_state := none, new_curve := none, mouse := Point.new 0 0 }
        [Event.down (Point.new 0 0), Event.move (Point.new 5 5),
          Event.move (Point.new 8 5)]).curves =
      [Curve.new (Point.new 8 5) (Point.new 100 0) (Point.new 200 0) (Point.new 300 0)] := by
  refine ⟨?_, by decide, by decide, by decide, by decide⟩
  intro s p idx handle hd hlt
  rw [mousemove_drag hd]
  dsimp only
  constructor
  · rw [getD_set_self _ _ _ _ hlt]
    exact select_movePoint_same _ _ _ _
  · rfl

/-- Witness for C2: the drag delta rule applied to the concrete one curve
state with drag state (0, A), pointer position (0,0) and a move to
(5,5). -/
theorem claim_C2_witness :
    Curve.select ((mousemove
        { curves := [Curve.new (Point.new 0 0) (Point.new 100 0)
            (Point.new 200 0) (Point.new 300 0)],
          drag_state := some (DragState.new 0 PointHandle.A),
          new_curve := none, mouse := Point.new 0 0 }
        (Point.new 5 5)).1.curves.getD 0 default) PointHandle.A = Point.new 5 5 ∧
    (mousemove
        { curves := [Curve.new (Point.new 0 0) (Point.new 100 0)
            (Point.new 200 0) (Point.new 300 0)],
          drag_state := some (DragState.new 0 PointHandle.A),
          new_curve := none, mouse := Point.new 0 0 }
        (Point.new 5 5)).1.mouse = Point.new 5 5 :=
  claim_C2_mousemove_drag_delta.1 _ (Point.new 5 5) 0 PointHandle.A rfl (by decide)

/-- C3: the pointer down hit test scans the curves in insertion order,
tests the points of each curve in the fixed order a, b, c, d with an
inclusive hit radius of 4 units (squared distance at most 16), enters the
drag state of the first hit, and on a hit it changes nothing but the drag
state and the stored pointer position and runs no new curve logic. -/
theorem claim_C3_hit_order :
    (∀ (p : Point) (c : Curve),
      hitTestCurve p c =
        [PointHandle.A, PointHandle.B, PointHandle.C, PointHandle.D].find?
          (fun h => decide (sqDist (Curve.select c h) p ≤ 16))) ∧
    (∀ (p : Point) (l : List Curve) (ds : DragState),
      hitTest p l 0 = some ds ↔
        ds.curve_index < l.length ∧
        hitTestCurve p (l.getD ds.curve_index default) = some ds.point ∧
        ∀ j, j < ds.curve_index → hitTestCurve p (l.getD j default) = none) ∧
    (∀ (s : State) (p : Point) (ds : DragState),
      hitTest p s.curves 0 = some ds →
      mousedown s p = ({ s with mouse := p, drag_state := some ds }, 0)) :=
  ⟨hitTestCurve_eq_find, hitTest_zero_iff, fun _ _ _ h => mousedown_hit h⟩

/-- Witness for C3: with two curves whose handles both overlap the click
point (0,0), the earliest curve wins and within it handle a wins, although
handle b of the first curve and handle a of the second curve are exactly
at the click point. -/
theorem claim_C3_witness :
    mousedown
        { curves := [Curve.new (Point.new 3 0) (Point.new 0 0)
            (Point.new 50 50) (Point.new 90 90),
          Curve.new (Point.new 0 0) (Point.new 60 0)
            (Point.new 70 0) (Point.new 80 0)],
          drag_state := none, new_curve := none, mouse := Point.new 7 7 }
        (Point.new 0 0) =
      ({ curves := [Curve.new (Point.new 3 0) (Point.new 0 0)
            (Point.new 50 50) (Point.new 90 90),
          Curve.new (Point.new 0 0) (Point.new 60 0)
            (Point.new 70 0) (Point.new 80 0)],
          drag_state := some (DragState.new 0 PointHandle.A),
          new_curve := none, mouse := Point.new 0 0 }, 0) :=
  claim_C3_hit_order.2.2 _ (Point.new 0 0) (DragState.new 0 PointHandle.A) (by decide)

/-- C4 as stated is false of the code: the f64 evaluation of
is_point_inside_circle rounds the squared sum, so for a large radius a
point strictly outside the circle is reported inside.  At center (0,0),
radius 2^27 and point (2^27, 1) the squared distance is 2^54 + 1 and the
squared radius 2^54, yet the function returns true. -/
theorem claim_C4_counterexample :
    is_point_inside_circle (Point.new 0 0) 134217728 (Point.new 134217728 1) = true ∧
    ¬ (((134217728 : Int) - 0) ^ 2 + ((1 : Int) - 0) ^ 2 ≤ ((134217728 : Nat) : Int) ^ 2) := by
  constructor
  · decide
  · decide

/-- C4 (amended): for all centers, points and radii whose coordinate
differences and radius are at most 2^26 in magnitude, so that every f64
value in the computation is exact, is_point_inside_circle returns true
exactly when the squared euclidean distance is at most the squared radius,
boundary included. -/
theorem claim_C4_amended (center point : Point) (radius : Nat)
    (hx : (point.x - center.x).natAbs ≤ 67108864)
    (hy : (point.y - center.y).natAbs ≤ 67108864)
    (hr : radius ≤ 67108864) :
    is_point_inside_circle center radius point = true ↔
      (point.x - center.x) ^ 2 + (point.y - center.y) ^ 2 ≤ (radius : Int) ^ 2 := by
  have habs : ∀ d : Int, d.natAbs ≤ 67108864 → d ^ 2 ≤ 4503599627370496 := by
    intro d hd
    have h1 : |d| ≤ 67108864 := by
      rw [Int.abs_eq_natAbs]
      exact_mod_cast hd
    calc d ^ 2 = |d| ^ 2 := (sq_abs d).symm
    _ ≤ 67108864 ^ 2 := by
      apply pow_le_pow_left₀ (abs_nonneg d) h1
    _ = 4503599627370496 := by norm_num
  have hdx := habs _ hx
  have hdy := habs _ hy
  have hr2 : (radius : Int) ^ 2 ≤ 4503599627370496 := by
    have h1 : (radius : Int) ≤ 67108864 := by exact_mod_cast hr
    calc (radius : Int) ^ 2 ≤ 67108864 ^ 2 := by
          apply pow_le_pow_left₀ (by positivity) h1
    _ = 4503599627370496 := by norm_num
  have hswapx : (center.x - point.x) ^ 2 = (point.x - center.x) ^ 2 := by ring
  have hswapy : (center.y - point.y) ^ 2 = (point.y - center.y) ^ 2 := by ring
  simp only [is_point_inside_circle, hswapx, hswapy]
  rw [roundF64_small (sq_nonneg _) (by omega), roundF64_small (sq_nonneg _) (by omega),
    roundF64_small (by positivity) (by omega), roundF64_small (sq_nonneg _) (by omega)]
  exact decide_eq_true_iff

/-- Witness for C4 (amended): the boundary point (3,4) of the circle of
radius 5 around the origin is reported inside, matching the exact test
9 + 16 ≤ 25. -/
theorem claim_C4_witness :
    ((Point.new 3 4).x - (Point.new 0 0).x).natAbs ≤ 67108864 ∧
    (is_point_inside_circle (Point.new 0 0) 5 (Point.new 3 4) = true ↔
      ((Point.new 3 4).x - (Point.new 0 0).x) ^ 2 +
        ((Point.new 3 4).y - (Point.new 0 0).y) ^ 2 ≤ ((5 : Nat) : Int) ^ 2) :=
  ⟨by decide,
    claim_C4_amended (Point.new 0 0) (Point.new 3 4) 5 (by decide) (by decide) (by decide)⟩

/-- C5: the synthesized control points lie at the one third and two thirds
positions of the segment from the anchor A to the click point D, with the
exact values truncated toward zero when stored: B = A + (D−A)/3 is stored
as the truncation of (3A + (D−A))/3 componentwise, and C = A + 2(D−A)/3 as
the truncation of (3A + 2(D−A))/3.  For A=(0,0), D=(300,300) this gives
B=(100,100) and C=(200,200); the last two conjuncts show the store
truncates (2/3 becomes 0, and -2/3 becomes 0, not a rounded value). -/
theorem claim_C5_synth_thirds :
    (∀ a d : Point,
      (synthCurve a d).b =
        Point.new (Int.tdiv (3 * a.x + (d.x - a.x)) 3) (Int.tdiv (3 * a.y + (d.y - a.y)) 3) ∧
      (synthCurve a d).c =
        Point.new (Int.tdiv (3 * a.x + 2 * (d.x - a.x)) 3)
          (Int.tdiv (3 * a.y + 2 * (d.y - a.y)) 3)) ∧
    (synthCurve (Point.new 0 0) (Point.new 300 300)).b = Point.new 100 100 ∧
    (synthCurve (Point.new 0 0) (Point.new 300 300)).c = Point.new 200 200 ∧
    (synthCurve (Point.new 0 0) (Point.new 2 2)).b = Point.new 0 0 ∧
    (synthCurve (Point.new 0 0) (Point.new (-2) (-2))).b = Point.new 0 0 := by
  refine ⟨?_, by decide, by decide, by decide, by decide⟩
  intro a d
  constructor
  · simp only [synthCurve, Fx.ofInt, Fx.sub, Fx.add, Fx.div, Fx.mul, truncToInt, Curve.new]
    congr 1 <;> congr 1 <;> ring
  · simp only [synthCurve, Fx.ofInt, Fx.sub, Fx.add, Fx.div, Fx.mul, truncToInt, Curve.new]
    congr 1 <;> congr 1 <;> ring

/-- C6: in every state reachable from the initial state by pointer events,
a set drag state always carries a valid index into the curve list, so the
indexing done by the pointer move handler never goes out of range, and no
event ever shrinks the curve list. -/
theorem claim_C6_drag_index_invariant (s : State) (h : Reachable s) :
    (∀ ds : DragState, s.drag_state = some ds → ds.curve_index < s.curves.length) ∧
    (∀ e : Event, s.curves.length ≤ ((stepEv s e).1).curves.length) :=
  ⟨inv_reachable h, fun e => length_step s e⟩

/-- Witness for C6: after creating one curve with two clicks and clicking
its anchor, the reachable state has drag state (0, A) and the index 0 is
below the curve count 1. -/
theorem claim_C6_witness :
    (DragState.new 0 PointHandle.A).curve_index <
      (run initState [Event.down (Point.new 10 10), Event.down (Point.new 310 10),
        Event.down (Point.new 10 10)]).curves.length :=
  (claim_C6_drag_index_invariant _
      ⟨[Event.down (Point.new 10 10), Event.down (Point.new 310 10),
        Event.down (Point.new 10 10)], rfl⟩).1
    (DragState.new 0 PointHandle.A) (by decide)

/-- C7: the pointer up handler unconditionally clears the drag state,
touches nothing else (curves, pending anchor, pointer position), performs
no redraw call, and is idempotent. -/
theorem claim_C7_mouseup (s : State) :
    mouseup s = ({ s with drag_state := none }, 0) ∧
    (mouseup s).1.drag_state = none ∧
    (mouseup s).1.curves = s.curves ∧
    (mouseup s).1.new_curve = s.new_curve ∧
    (mouseup s).1.mouse = s.mouse ∧
    (mouseup s).2 = 0 ∧
    mouseup (mouseup s).1 = mouseup s :=
  ⟨rfl, rfl, rfl, rfl, rfl, rfl, rfl⟩

/-- C8: a pointer move received while no drag is active and no pending
anchor is set changes no state field and performs no redraw call. -/
theorem claim_C8_idle_move (s : State) (p : Point)
    (hd : s.drag_state = none) (hn : s.new_curve = none) :
    mousemove s p = (s, 0) :=
  mousemove_none hd hn

/-- Witness for C8: an idle pointer move on the initial state is a
no-op. -/
theorem claim_C8_witness : mousemove initState (Point.new 9 9) = (initState, 0) :=
  claim_C8_idle_move initState (Point.new 9 9) rfl rfl

/-- C9: a pointer move processed during a drag of handle (idx, handle)
changes only that one point: the curve count is unchanged, every other
curve is unchanged, the other three points of the dragged curve are
unchanged, the pending anchor is unchanged, and the drag state keeps its
value. -/
theorem claim_C9_drag_frame (s : State) (p : Point) (idx : Nat) (handle : PointHandle)
    (hd : s.drag_state = some (DragState.new idx handle)) (hlt : idx < s.curves.length) :
    (mousemove s p).1.curves.length = s.curves.length ∧
    (∀ j : Nat, j ≠ idx →
      (mousemove s p).1.curves.getD j default = s.curves.getD j default) ∧
    (∀ h2 : PointHandle, h2 ≠ handle →
      Curve.select ((mousemove s p).1.curves.getD idx default) h2 =
        Curve.select (s.curves.getD idx default) h2) ∧
    (mousemove s p).1.new_curve = s.new_curve ∧
    (mousemove s p).1.drag_state = some (DragState.new idx handle) := by
  rw [mousemove_drag hd]
  dsimp only
  refine ⟨by simp, ?_, ?_, rfl, rfl⟩
  · intro j hj
    exact getD_set_ne _ _ _ _ _ (fun he => hj he.symm)
  · intro h2 hne
    rw [getD_set_self _ _ _ _ hlt]
    exact select_movePoint_other _ _ _ _ _ hne

/-- Witness for C9: dragging handle a of the concrete one curve state
moves only a; handle b keeps its value and the drag state and pending
anchor are preserved. -/
theorem claim_C9_witness :
    Curve.select ((mousemove
        { curves := [Curve.new (Point.new 0 0) (Point.new 100 0)
            (Point.new 200 0) (Point.new 300 0)],
          drag_state := some (DragState.new 0 PointHandle.A),
          new_curve := none, mouse := Point.new 0 0 }
        (Point.new 5 5)).1.curves.getD 0 default) PointHandle.B =
      Curve.select
        (({ curves := [Curve.new (Point.new 0 0) (Point.new 100 0)
              (Point.new 200 0) (Point.new 300 0)],
            drag_state := some (DragState.new 0 PointHandle.A),
            new_curve := none, mouse := Point.new 0 0 } : State).curves.getD 0 default)
        PointHandle.B :=
  (claim_C9_drag_frame _ (Point.new 5 5) 0 PointHandle.A rfl (by decide)).2.2.1
    PointHandle.B (by decide)

/-- C10: the synthesized curve stores the two click points exactly: its
start anchor is the pending anchor A and its end anchor is the second
click point D, with no floating point conversion applied to them, and the
completed two click gesture appends exactly that curve. -/
theorem claim_C10_endpoints_exact :
    (∀ a d : Point, (synthCurve a d).a = a ∧ (synthCurve a d).d = d) ∧
    (∀ (s : State) (p a0 : Point),
      hitTest p s.curves 0 = none → s.new_curve = some a0 →
      (mousedown s p).1.curves = s.curves ++ [synthCurve a0 p] ∧
      (synthCurve a0 p).a = a0 ∧ (synthCurve a0 p).d = p) := by
  refine ⟨fun a d => ⟨rfl, rfl⟩, ?_⟩
  intro s p a0 hh ha
  rw [mousedown_free_pending hh ha]
  exact ⟨rfl, rfl, rfl⟩

/-- Witness for C10: completing a gesture with anchor (1,2) and click
(8,9) appends the synthesized curve, whose endpoints are exactly (1,2)
and (8,9). -/
theorem claim_C10_witness :
    (mousedown
        { curves := [], drag_state := none, new_curve := some (Point.new 1 2),
          mouse := Point.new 1 2 } (Point.new 8 9)).1.curves =
      [] ++ [synthCurve (Point.new 1 2) (Point.new 8 9)] ∧
    (synthCurve (Point.new 1 2) (Point.new 8 9)).a = Point.new 1 2 ∧
    (synthCurve (Point.new 1 2) (Point.new 8 9)).d = Point.new 8 9 :=
  claim_C10_endpoints_exact.2 _ (Point.new 8 9) (Point.new 1 2) (by decide) rfl

end Slipsole
